import Mathlib

/-!
Verification development for the JMP Tracker departure lifecycle
(src/database.py, src/ui.py, src/pages/dashboard.py, src/pages/arrivals.py).

Timestamps are embedded as `Int` seconds in a single timezone-aware
representation (the source localizes every naive timestamp to the configured
local zone before comparing).  An empty spreadsheet cell for `actual_return`
is embedded as `none`.  Each Python function that wraps its body in
try/except and returns `False` / an empty frame on failure is embedded as a
total Lean function returning a `Bool` success flag next to the new state.
-/

set_option autoImplicit false

namespace JMP

/-- One row of the Departures sheet, columns A..M in order
(`database.py`, `add_departure` new_row layout).  The persisted
`is_overdue` column (K) is written once at creation and never read back;
it is kept here as `stored_is_overdue` for fidelity. -/
structure Departure where
  id : Nat
  person_name : String
  destination : String
  departed_at : Int
  expected_return : Int
  actual_return : Option Int
  phone : String
  supervisor : String
  company : String
  extensions_count : Nat
  stored_is_overdue : Bool
  group_id : String
  last_location : String
  deriving Repr, DecidableEq

/-- One row of the Extensions sheet (`extend_departure`, new_extension). -/
structure Extension where
  id : Nat
  departure_id : Nat
  hours_extended : Int
  extended_at : Int
  location : String
  deriving Repr, DecidableEq

/-- The two sheets the departure lifecycle touches. -/
structure DB where
  departures : List Departure
  extensions : List Extension
  deriving Repr, DecidableEq

/-- `database.py` line 221: `df[ is_overdue] = df[ expected_return] < now_local`. -/
def isOverdue (d : Departure) (now : Int) : Bool :=
  decide (d.expected_return < now)

/-- `database.py` line 224:
`(df[ expected_return] - now_local).dt.total_seconds() / 3600`. -/
def timeRemaining (d : Departure) (now : Int) : ℚ :=
  ((d.expected_return - now : ℤ) : ℚ) / 3600

/-- A departure is active iff its `actual_return` cell is empty
(`df[df[ actual_return] == '']`). -/
def isActive (d : Departure) : Bool :=
  d.actual_return.isNone

/-- The row produced by `get_active_departures` for one active departure:
the stored fields plus the two derived columns. -/
structure ActiveRow where
  dep : Departure
  is_overdue : Bool
  time_remaining : ℚ
  deriving Repr, DecidableEq

/-- `get_active_departures` before the final sort: filter the rows whose
`actual_return` is empty and attach the derived columns. -/
def activeRows (db : List Departure) (now : Int) : List ActiveRow :=
  (db.filter isActive).map fun d => ⟨d, isOverdue d now, timeRemaining d now⟩

/-- `get_active_departures` (`database.py` 200-229): active rows sorted by
`time_remaining` ascending. -/
def getActiveDepartures (db : List Departure) (now : Int) : List ActiveRow :=
  (activeRows db now).mergeSort fun a b => decide (a.time_remaining ≤ b.time_remaining)

/-- `mark_returned` body (`database.py` 279-302): locate the first row whose
id matches (`.index[0]`), write `now` into its `actual_return` cell
unconditionally; a missing id raises IndexError, which the except clause
turns into `False` with no write. -/
def markReturnedRows (did : Nat) (now : Int) : List Departure → List Departure × Bool
  | [] => ([], false)
  | d :: rest =>
    if d.id = did then ({ d with actual_return := some now } :: rest, true)
    else
      let r := markReturnedRows did now rest
      (d :: r.1, r.2)

/-- `mark_returned` on the database state. -/
def markReturned (db : DB) (did : Nat) (now : Int) : DB × Bool :=
  let r := markReturnedRows did now db.departures
  ({ db with departures := r.1 }, r.2)

/-- The first departures row carrying a given id: what
`departures_df[departures_df[ id] == departure_id].index[0]` addresses. -/
def findDeparture (deps : List Departure) (did : Nat) : Option Departure :=
  deps.find? fun d => decide (d.id = did)

/-- The in-place update `extend_departure` performs on the located departure
row: `expected_return += hours` (column E), `extensions_count += 1`
(column J), and `last_location` overwritten when a location was supplied
(column M). -/
def extendRow (d : Departure) (hours : Int) (loc : Option String) : Departure :=
  { d with
    expected_return := d.expected_return + hours * 3600
    extensions_count := d.extensions_count + 1
    last_location := loc.getD d.last_location }

/-- Locate the first departures row whose id matches and apply `extendRow`;
`none` when no row matches (the IndexError path of `extend_departure`). -/
def extendRows (did : Nat) (hours : Int) (loc : Option String) :
    List Departure → Option (List Departure)
  | [] => none
  | d :: rest =>
    if d.id = did then some (extendRow d hours loc :: rest)
    else (extendRows did hours loc rest).map (d :: ·)

/-- `extend_departure` id assignment for the Extensions sheet
(`database.py` 337-341): `len(extensions_data) + 1 if extensions_data else 1`,
with a bare-except fallback to 1 — a count, not `max(id) + 1`. -/
def newExtId (exts : List Extension) : Nat :=
  if exts.isEmpty then 1 else exts.length + 1

/-- `extend_departure` (`database.py` 304-361): update the departures row
located by id, then append one Extension audit row.  No validation of
`hours` and no check that the departure is still active is performed; the
row is located in `get_all_departures` (returned rows included).  A missing
id raises, caught as `False` with no write. -/
def extendDeparture (db : DB) (did : Nat) (hours : Int) (loc : Option String)
    (now : Int) : DB × Bool :=
  match extendRows did hours loc db.departures with
  | none => (db, false)
  | some deps =>
    ({ departures := deps
       extensions := db.extensions ++
         [⟨newExtId db.extensions, did, hours, now, loc.getD ""⟩] }, true)

/-- A sequence of sequential (non-concurrent) `extend_departure` calls on
one departure id; each call is a triple (hours, optional location, now).
The flag is `true` iff every call in the sequence reported success. -/
def extendMany (db : DB) (did : Nat) : List (Int × Option String × Int) → DB × Bool
  | [] => (db, true)
  | c :: cs =>
    let r := extendDeparture db did c.1 c.2.1 c.2.2
    let rest := extendMany r.1 did cs
    (rest.1, r.2 && rest.2)

/-- `add_departure` id assignment (`database.py` 243):
`1 if departures_df.empty else int(departures_df[ id].max()) + 1`. -/
def maxId (deps : List Departure) : Nat :=
  deps.foldl (fun m d => max m d.id) 0

/-- New departure id: `max(existing ids) + 1`, or 1 when no rows exist. -/
def newDepartureId (deps : List Departure) : Nat :=
  if deps.isEmpty then 1 else maxId deps + 1

/-- `add_departure` (`database.py` 231-277): append one new row with the
computed id, `departed_at = now`, empty `actual_return`,
`extensions_count = 0` and the persisted `is_overdue` cell written `False`. -/
def addDeparture (db : DB) (person_name destination : String)
    (expected_return : Int) (phone supervisor company : String)
    (group_id : String) (initial_location : String) (now : Int) :
    DB × Departure :=
  let row : Departure :=
    { id := newDepartureId db.departures
      person_name := person_name
      destination := destination
      departed_at := now
      expected_return := expected_return
      actual_return := none
      phone := phone
      supervisor := supervisor
      company := company
      extensions_count := 0
      stored_is_overdue := false
      group_id := group_id
      last_location := initial_location }
  ({ db with departures := db.departures ++ [row] }, row)

/-- The filter `mark_group_returned` reads (`database.py` 484-487): rows of
the given group whose `actual_return` is still empty. -/
def groupActiveTargets (deps : List Departure) (gid : String) : List Departure :=
  deps.filter fun d => d.group_id = gid ∧ isActive d

/-- `mark_group_returned` (`database.py` 474-503): for every target row,
write `now` into the `actual_return` cell of the first row carrying that id
(the loop re-locates each id with `.index[0]`).  Returns only a single
success flag. -/
def markGroupReturned (db : DB) (gid : String) (now : Int) : DB × Bool :=
  let targets := groupActiveTargets db.departures gid
  let deps := targets.foldl (fun acc t => (markReturnedRows t.id now acc).1) db.departures
  ({ db with departures := deps }, true)

/-- The three-way display classification of `render_departure_card`
(`ui.py` 339-350) and of the dashboard cards. -/
inductive Classification where
  | overdue
  | dueSoon
  | onTime
  deriving Repr, DecidableEq

/-- `ui.py` 342-350: red when `is_overdue`, else yellow (warning) when
`time_remaining < 0.5` hours, else green. -/
def classifyCard (is_overdue : Bool) (time_remaining : ℚ) : Classification :=
  if is_overdue then .overdue
  else if time_remaining < 1/2 then .dueSoon
  else .onTime

/-- Classification of one active row as rendered. -/
def classifyRow (r : ActiveRow) : Classification :=
  classifyCard r.is_overdue r.time_remaining

/-- The active members of a group as the dashboard builds `groups_dict`
(`dashboard.py` 105-109): the active rows carrying this `group_id`. -/
def groupMembers (db : List Departure) (now : Int) (gid : String) : List ActiveRow :=
  (activeRows db now).filter fun r => r.dep.group_id = gid

/-- `dashboard.py` 128: `min([d[ time_remaining] for d in group_deps])`;
`none` on an empty member list (Python `min` raises there). -/
def groupMinTime (ms : List ActiveRow) : Option ℚ :=
  (ms.map (·.time_remaining)).min?

/-- `dashboard.py` 148: `any(m[ is_overdue] for m in item[ members])`. -/
def groupAnyOverdue (ms : List ActiveRow) : Bool :=
  ms.any (·.is_overdue)

/-- The group card classification (`dashboard.py` 151-159): red when any
member is overdue, else yellow when the minimum time remaining is below
half an hour, else green. -/
def classifyGroup (ms : List ActiveRow) (minTime : ℚ) : Classification :=
  if groupAnyOverdue ms then .overdue
  else if minTime < 1/2 then .dueSoon
  else .onTime

/-! ### Concrete test fixtures -/

/-- A departure row with the given id, expected return, actual return and
group id; the remaining fields are fixed test data. -/
def mkDeparture (i : Nat) (er : Int) (ar : Option Int) (gid : String) : Departure :=
  { id := i
    person_name := "Alice"
    destination := "Ridge Trail"
    departed_at := 0
    expected_return := er
    actual_return := ar
    phone := ""
    supervisor := ""
    company := ""
    extensions_count := 0
    stored_is_overdue := false
    group_id := gid
    last_location := "" }

/-- An active departure expected back exactly at instant 100. -/
def depB : Departure := mkDeparture 1 100 none ""

/-- A member of group 7, overdue at instant 100. -/
def depG1 : Departure := mkDeparture 1 50 none "7"

/-- A member of group 7, well on time at instant 100. -/
def depG2 : Departure := mkDeparture 2 10000 none "7"

/-- The second member of group 7, already returned at instant 50. -/
def depG2r : Departure := mkDeparture 2 10000 (some 50) "7"

/-- Group 7 with both members still out. -/
def dbGroupA : DB := ⟨[depG1, depG2], []⟩

/-- Group 7 with the second member already returned. -/
def dbGroupB : DB := ⟨[depG1, depG2r], []⟩

/-- An active departure due back 1000 seconds after instant 0. -/
def depDS : Departure := mkDeparture 3 1000 none ""

/-- The derived row of `depDS` at instant 0. -/
def rowDS : ActiveRow := ⟨depDS, isOverdue depDS 0, timeRemaining depDS 0⟩

/-- A store whose only departure has already returned. -/
def dbR : DB := ⟨[mkDeparture 1 10000 (some 50) ""], []⟩

/-- The derived row `get_active_departures` produces for `depB` at
instant 100. -/
def rowB : ActiveRow := ⟨depB, isOverdue depB 100, timeRemaining depB 100⟩

end JMP

namespace JMP

/-! ### Claim C1: the overdue boundary -/

/-- The key membership unfolding for `get_active_departures`: a row is in
the sorted output iff it is the derived row of an active departure. -/
theorem mem_getActiveDepartures {db : List Departure} {now : Int} {r : ActiveRow} :
    r ∈ getActiveDepartures db now ↔
      ∃ d ∈ db, isActive d = true ∧ r = ⟨d, isOverdue d now, timeRemaining d now⟩ := by
  rw [getActiveDepartures, List.mem_mergeSort, activeRows, List.mem_map]
  constructor
  · rintro ⟨d, hd, rfl⟩
    rcases List.mem_filter.mp hd with ⟨hmem, hact⟩
    exact ⟨d, hmem, hact, rfl⟩
  · rintro ⟨d, hmem, hact, rfl⟩
    exact ⟨d, List.mem_filter.mpr ⟨hmem, hact⟩, rfl⟩

/-- C1 counterexample: an active departure whose `expected_return` is
exactly the evaluation instant is NOT flagged overdue (the source computes
`expected_return < now`, strict), and its card is classified due-soon,
contradicting the claim that the boundary case is classified overdue. -/
theorem C1_boundary_counterexample :
    rowB ∈ getActiveDepartures [depB] 100 ∧
    rowB.dep.expected_return = 100 ∧
    rowB.is_overdue = false ∧
    classifyRow rowB = Classification.dueSoon := by
  refine ⟨?_, rfl, by decide, ?_⟩
  · exact mem_getActiveDepartures.mpr ⟨depB, List.mem_singleton.mpr rfl, rfl, rfl⟩
  · show classifyCard (isOverdue depB 100) (timeRemaining depB 100) = Classification.dueSoon
    have h1 : isOverdue depB 100 = false := by decide
    have h2 : timeRemaining depB 100 = 0 := by
      simp [timeRemaining, depB, mkDeparture]
    rw [h1, h2, classifyCard]
    norm_num

/-- C1 (amended): for every active departure, the computed `is_overdue`
flag equals `expected_return < now`; at the boundary where
`expected_return` equals `now` the departure is not overdue and the card
classification is due-soon. -/
theorem C1_overdue_flag_boundary (db : List Departure) (now : Int) (r : ActiveRow)
    (hr : r ∈ getActiveDepartures db now) :
    (r.is_overdue = true ↔ r.dep.expected_return < now) ∧
    (r.dep.expected_return = now →
      r.is_overdue = false ∧ classifyRow r = Classification.dueSoon) := by
  rcases mem_getActiveDepartures.mp hr with ⟨d, _, _, rfl⟩
  constructor
  · simp [isOverdue]
  · intro heq
    have heq' : d.expected_return = now := heq
    have h1 : isOverdue d now = false := by simp [isOverdue, heq']
    have h2 : timeRemaining d now = 0 := by simp [timeRemaining, heq']
    refine ⟨h1, ?_⟩
    show classifyCard (isOverdue d now) (timeRemaining d now) = Classification.dueSoon
    rw [h1, h2, classifyCard]
    norm_num

/-- Witness for `C1_overdue_flag_boundary` at the concrete boundary input. -/
theorem C1_overdue_flag_boundary_witness :
    (rowB.is_overdue = true ↔ rowB.dep.expected_return < 100) ∧
    (rowB.dep.expected_return = 100 →
      rowB.is_overdue = false ∧ classifyRow rowB = Classification.dueSoon) := by
  apply C1_overdue_flag_boundary [depB] 100 rowB
  exact mem_getActiveDepartures.mpr ⟨depB, List.mem_singleton.mpr rfl, rfl, rfl⟩

/-! ### Claim C2: MarkReturned has no emptiness guard -/

/-- Repeating the row write of `mark_returned` at the same instant changes
nothing further. -/
theorem markReturnedRows_repeat (did : Nat) (now : Int) (l : List Departure) :
    markReturnedRows did now (markReturnedRows did now l).1 =
      markReturnedRows did now l := by
  induction l with
  | nil => rfl
  | cons d rest ih =>
    by_cases h : d.id = did
    · simp [markReturnedRows, h]
    · simp [markReturnedRows, h, ih]

/-- The row write of `mark_returned` sets `actual_return := now` on the
first row with the given id, whatever its previous value. -/
theorem markReturnedRows_find (did : Nat) (now : Int) (l : List Departure) :
    findDeparture (markReturnedRows did now l).1 did =
      (findDeparture l did).map fun d => { d with actual_return := some now } := by
  induction l with
  | nil => rfl
  | cons d rest ih =>
    by_cases h : d.id = did
    · simp [markReturnedRows, findDeparture, List.find?_cons, h]
    · simp [markReturnedRows, findDeparture, List.find?_cons, h] at ih ⊢
      exact ih

/-- C2 counterexample: on a departure that is already marked returned, a
second `mark_returned` call at a later instant reports success and changes
the persisted state (the later timestamp overwrites the earlier one), so
two calls do not yield the same final state as one. -/
theorem C2_counterexample :
    (markReturned (markReturned ⟨[depB], []⟩ 1 100).1 1 200).2 = true ∧
    (markReturned (markReturned ⟨[depB], []⟩ 1 100).1 1 200).1 ≠
      (markReturned ⟨[depB], []⟩ 1 100).1 := by
  decide

/-- C2 (amended): `mark_returned` writes `actual_return = now`
unconditionally into the first departures row with the given id — there is
no emptiness guard — so a repeated call at the same instant yields the same
final state as one call, while the first matching row always ends with
`actual_return = now` whatever it previously held. -/
theorem C2_markReturned_no_guard (db : DB) (did : Nat) (now : Int) :
    markReturned (markReturned db did now).1 did now = markReturned db did now ∧
    findDeparture (markReturned db did now).1.departures did =
      (findDeparture db.departures did).map
        (fun d => { d with actual_return := some now }) := by
  constructor
  · simp [markReturned, markReturnedRows_repeat]
  · simp [markReturned, markReturnedRows_find]

/-! ### Claim C3: sequential extends -/

/-- When the id is present, the row update of `extend_departure` succeeds
and the first matching row becomes `extendRow` of what it was. -/
theorem extendRows_of_find (did : Nat) (h : Int) (loc : Option String)
    {deps : List Departure} {d : Departure}
    (hd : findDeparture deps did = some d) :
    ∃ deps', extendRows did h loc deps = some deps' ∧
      findDeparture deps' did = some (extendRow d h loc) := by
  induction deps with
  | nil => simp [findDeparture] at hd
  | cons d0 rest ih =>
    by_cases h0 : d0.id = did
    · rw [findDeparture, List.find?_cons_of_pos _ (by simpa using h0)] at hd
      cases hd
      refine ⟨extendRow d h loc :: rest, by simp [extendRows, h0], ?_⟩
      rw [findDeparture, List.find?_cons_of_pos]
      simpa [extendRow] using h0
    · rw [findDeparture, List.find?_cons_of_neg _ (by simpa using h0)] at hd
      rcases ih hd with ⟨rest', hrest, hfind⟩
      refine ⟨d0 :: rest', by simp [extendRows, h0, hrest], ?_⟩
      rw [findDeparture, List.find?_cons_of_neg _ (by simpa using h0)]
      exact hfind

/-- Behaviour of a sequence of extends when the departure id is present:
every call succeeds, the counter grows by the number of calls, the
expected return grows by the sum of the extended hours, and one audit row
per call is appended carrying the departure id and the hours. -/
theorem extendMany_spec (did : Nat)
    (calls : List (Int × Option String × Int)) :
    ∀ (db : DB) (d : Departure),
    findDeparture db.departures did = some d →
    (extendMany db did calls).2 = true ∧
    (∃ d', findDeparture (extendMany db did calls).1.departures did = some d' ∧
      d'.extensions_count = d.extensions_count + calls.length ∧
      d'.expected_return = d.expected_return + 3600 * (calls.map (·.1)).sum) ∧
    ∃ new, (extendMany db did calls).1.extensions = db.extensions ++ new ∧
      new.map (fun e => (e.departure_id, e.hours_extended)) =
        calls.map (fun c => (did, c.1)) := by
  induction calls with
  | nil =>
    intro db d hd
    refine ⟨rfl, ⟨d, hd, by simp, by simp⟩, [], by simp [extendMany], by simp⟩
  | cons c cs ih =>
    intro db d hd
    rcases extendRows_of_find did c.1 c.2.1 hd with ⟨deps', hrows, hfind⟩
    have hstep : extendDeparture db did c.1 c.2.1 c.2.2 =
        (⟨deps', db.extensions ++
           [⟨newExtId db.extensions, did, c.1, c.2.2, c.2.1.getD ""⟩]⟩, true) := by
      simp only [extendDeparture, hrows]
    rcases ih (⟨deps', db.extensions ++
          [⟨newExtId db.extensions, did, c.1, c.2.2, c.2.1.getD ""⟩]⟩ : DB)
        (extendRow d c.1 c.2.1) hfind with ⟨hok, ⟨d', hd', hcount, her⟩, new', hext, hmap⟩
    refine ⟨?_, ⟨d', ?_, ?_, ?_⟩, ?_⟩
    · simp [extendMany, hstep, hok]
    · simpa [extendMany, hstep] using hd'
    · rw [hcount]
      simp [extendRow]
      omega
    · rw [her]
      simp [extendRow]
      ring
    · refine ⟨⟨newExtId db.extensions, did, c.1, c.2.2, c.2.1.getD ""⟩ :: new', ?_, ?_⟩
      · simpa [extendMany, hstep] using hext
      · simpa using hmap

/-- C3: starting from a departure with `extensions_count = 0`, after N
sequential successful extends the counter equals N, the expected return
equals the initial value plus the sum of all extended hours (in seconds),
and exactly one Extension audit row per call was appended, carrying the
departure id and the hours extended. -/
theorem C3_sequential_extends (db : DB) (did : Nat) (d : Departure)
    (calls : List (Int × Option String × Int))
    (hd : findDeparture db.departures did = some d)
    (h0 : d.extensions_count = 0) :
    (extendMany db did calls).2 = true ∧
    (∃ d', findDeparture (extendMany db did calls).1.departures did = some d' ∧
      d'.extensions_count = calls.length ∧
      d'.expected_return = d.expected_return + 3600 * (calls.map (·.1)).sum) ∧
    ∃ new, (extendMany db did calls).1.extensions = db.extensions ++ new ∧
      new.map (fun e => (e.departure_id, e.hours_extended)) =
        calls.map (fun c => (did, c.1)) := by
  have h := extendMany_spec did calls db d hd
  rw [h0] at h
  simpa using h

/-- Witness for `C3_sequential_extends`: two extends of 2 and 3 hours on a
fresh departure. -/
theorem C3_sequential_extends_witness :
    (extendMany ⟨[depB], []⟩ 1 [(2, none, 10), (3, none, 20)]).2 = true ∧
    (∃ d', findDeparture
        (extendMany ⟨[depB], []⟩ 1 [(2, none, 10), (3, none, 20)]).1.departures 1 =
          some d' ∧
      d'.extensions_count = [(2, none, 10), ((3 : Int), (none : Option String), (20 : Int))].length ∧
      d'.expected_return = depB.expected_return +
        3600 * ([((2 : Int), (none : Option String), (10 : Int)), (3, none, 20)].map (·.1)).sum) ∧
    ∃ new, (extendMany ⟨[depB], []⟩ 1 [(2, none, 10), (3, none, 20)]).1.extensions =
        ([] : List Extension) ++ new ∧
      new.map (fun e => (e.departure_id, e.hours_extended)) =
        [((2 : Int), (none : Option String), (10 : Int)), (3, none, 20)].map
          (fun c => (1, c.1)) := by
  exact C3_sequential_extends ⟨[depB], []⟩ 1 depB [(2, none, 10), (3, none, 20)]
    (by decide) (by decide)

/-! ### Claim C4: group aggregation -/

/-- Folding `min` only lowers the accumulator. -/
theorem foldl_min_le_init (l : List ℚ) (a : ℚ) : l.foldl min a ≤ a := by
  induction l generalizing a with
  | nil => simp
  | cons x xs ih => exact le_trans (ih (min a x)) (min_le_left a x)

/-- The fold of `min` is below every list element. -/
theorem foldl_min_le_mem (l : List ℚ) (a x : ℚ) (hx : x ∈ l) :
    l.foldl min a ≤ x := by
  induction l generalizing a with
  | nil => cases hx
  | cons y ys ih =>
    rcases List.mem_cons.mp hx with rfl | hx'
    · exact le_trans (foldl_min_le_init ys (min a x)) (min_le_right a x)
    · exact ih (min a y) hx'

/-- The fold of `min` is the accumulator or one of the elements. -/
theorem foldl_min_mem (l : List ℚ) (a : ℚ) :
    l.foldl min a = a ∨ l.foldl min a ∈ l := by
  induction l generalizing a with
  | nil => exact Or.inl rfl
  | cons x xs ih =>
    rcases ih (min a x) with h | h
    · rcases min_choice a x with h2 | h2
      · exact Or.inl (by rw [List.foldl_cons, h, h2])
      · exact Or.inr (by rw [List.foldl_cons, h, h2]; exact List.mem_cons_self x xs)
    · exact Or.inr (List.mem_cons_of_mem x h)

/-- Characterization of `List.min?` on rationals: the value is attained
and is a lower bound. -/
theorem min?_spec {l : List ℚ} {m : ℚ} (h : l.min? = some m) :
    m ∈ l ∧ ∀ x ∈ l, m ≤ x := by
  cases l with
  | nil => simp [List.min?] at h
  | cons a xs =>
    rw [List.min?] at h
    cases h
    constructor
    · rcases foldl_min_mem xs a with h | h
      · rw [h]; exact List.mem_cons_self a xs
      · exact List.mem_cons_of_mem a h
    · intro x hx
      rcases List.mem_cons.mp hx with rfl | hx'
      · exact foldl_min_le_init xs x
      · exact foldl_min_le_mem xs a x hx'

/-- The dashboard group card is red exactly when some member is flagged
overdue. -/
theorem classifyGroup_eq_overdue_iff (ms : List ActiveRow) (m : ℚ) :
    classifyGroup ms m = Classification.overdue ↔ groupAnyOverdue ms = true := by
  rw [classifyGroup]
  by_cases h : groupAnyOverdue ms = true
  · simp [h]
  · simp only [h, if_false, Bool.false_eq_true]
    constructor
    · intro hcls
      split at hcls <;> cases hcls
    · intro hcls
      exact hcls.elim

/-- C4: when a group has at least one active member (so its minimum
exists), the effective time remaining returned by the dashboard is the
minimum of the members, and the group is classified OVERDUE iff at least
one active member is overdue. -/
theorem C4_group_aggregation (db : List Departure) (now : Int) (gid : String)
    (m : ℚ) (hmin : groupMinTime (groupMembers db now gid) = some m) :
    (m ∈ (groupMembers db now gid).map (·.time_remaining) ∧
      ∀ r ∈ groupMembers db now gid, m ≤ r.time_remaining) ∧
    (classifyGroup (groupMembers db now gid) m = Classification.overdue ↔
      ∃ r ∈ groupMembers db now gid, r.is_overdue = true) := by
  constructor
  · rcases min?_spec (by simpa [groupMinTime] using hmin) with ⟨hmem, hle⟩
    exact ⟨hmem, fun r hr => hle _ (List.mem_map_of_mem _ hr)⟩
  · rw [classifyGroup_eq_overdue_iff]
    simp [groupAnyOverdue, List.any_eq_true]

/-- Witness for `C4_group_aggregation`: a two-member group with one
overdue member at instant 100. -/
theorem C4_group_aggregation_witness :
    (min (timeRemaining depG1 100) (timeRemaining depG2 100) ∈
        (groupMembers [depG1, depG2] 100 "7").map (·.time_remaining) ∧
      ∀ r ∈ groupMembers [depG1, depG2] 100 "7",
        min (timeRemaining depG1 100) (timeRemaining depG2 100) ≤ r.time_remaining) ∧
    (classifyGroup (groupMembers [depG1, depG2] 100 "7")
        (min (timeRemaining depG1 100) (timeRemaining depG2 100)) =
        Classification.overdue ↔
      ∃ r ∈ groupMembers [depG1, depG2] 100 "7", r.is_overdue = true) := by
  exact C4_group_aggregation [depG1, depG2] 100 "7"
    (min (timeRemaining depG1 100) (timeRemaining depG2 100)) rfl

/-! ### Claim C5: group return -/

/-- Ids are untouched by the row write of `mark_returned`. -/
theorem markReturnedRows_map_id (did : Nat) (now : Int) (l : List Departure) :
    (markReturnedRows did now l).1.map (·.id) = l.map (·.id) := by
  induction l with
  | nil => rfl
  | cons d rest ih =>
    by_cases h : d.id = did
    · simp [markReturnedRows, h]
    · simp [markReturnedRows, h, ih]

/-- With pairwise-distinct ids, the first-match write of `mark_returned`
is the pointwise update of every row carrying the id. -/
theorem markReturnedRows_eq_map (did : Nat) (now : Int) (l : List Departure)
    (hnd : (l.map (·.id)).Nodup) :
    (markReturnedRows did now l).1 =
      l.map fun d => if d.id = did then { d with actual_return := some now } else d := by
  induction l with
  | nil => rfl
  | cons d rest ih =>
    rw [List.map_cons, List.nodup_cons] at hnd
    by_cases h : d.id = did
    · have hrest : rest.map (fun e =>
          if e.id = did then { e with actual_return := some now } else e) = rest := by
        refine (List.map_congr_left ?_).trans (List.map_id rest)
        intro e he
        have : e.id ≠ did := fun heq => hnd.1 (h ▸ heq ▸ List.mem_map_of_mem (·.id) he)
        simp [this]
      simp [markReturnedRows, h, hrest]
    · simp [markReturnedRows, h, ih hnd.2]

/-- The loop of `mark_group_returned` over its targets, as a pointwise
update on rows whose id occurs among the targets. -/
theorem foldl_markReturned_eq_map (now : Int) (ts : List Departure) :
    ∀ (l : List Departure), (l.map (·.id)).Nodup →
    ts.foldl (fun acc t => (markReturnedRows t.id now acc).1) l =
      l.map fun d =>
        if d.id ∈ ts.map (·.id) then { d with actual_return := some now } else d := by
  induction ts with
  | nil =>
    intro l _
    simp
  | cons t ts' ih =>
    intro l hnd
    rw [List.foldl_cons]
    have hnd' : ((markReturnedRows t.id now l).1.map (·.id)).Nodup := by
      rw [markReturnedRows_map_id]; exact hnd
    rw [ih _ hnd', markReturnedRows_eq_map t.id now l hnd, List.map_map]
    refine List.map_congr_left ?_
    intro d _
    by_cases h : d.id = t.id
    · simp [Function.comp, h, List.mem_cons]
    · simp [Function.comp, h, List.mem_cons]

/-- Under distinct ids, a departure id occurs among the group-return
targets iff that departure is an active member of the group. -/
theorem mem_groupActiveTargets_ids (l : List Departure) (gid : String)
    (hnd : (l.map (·.id)).Nodup) (d : Departure) (hd : d ∈ l) :
    d.id ∈ (groupActiveTargets l gid).map (·.id) ↔
      (d.group_id = gid ∧ isActive d = true) := by
  constructor
  · intro h
    rcases List.mem_map.mp h with ⟨t, ht, hid⟩
    rcases List.mem_filter.mp ht with ⟨htl, hpred⟩
    have : t = d := List.inj_on_of_nodup_map hnd htl hd hid
    subst this
    simpa using hpred
  · intro h
    refine List.mem_map_of_mem (·.id) (List.mem_filter.mpr ⟨hd, ?_⟩)
    simpa using h

/-- C5 counterexample: the reported result of `mark_group_returned` is the
same bare success flag whether or not some member had already returned, so
the operation does not report which members were actually transitioned;
the two runs transition different member sets (the final states differ,
and member 2 keeps its old return time in the second run). -/
theorem C5_counterexample :
    (markGroupReturned dbGroupA "7" 100).2 = (markGroupReturned dbGroupB "7" 100).2 ∧
    (markGroupReturned dbGroupA "7" 100).1 ≠ (markGroupReturned dbGroupB "7" 100).1 ∧
    findDeparture (markGroupReturned dbGroupA "7" 100).1.departures 2 =
      some { depG2 with actual_return := some 100 } ∧
    findDeparture (markGroupReturned dbGroupB "7" 100).1.departures 2 = some depG2r := by
  decide

/-- C5 (amended): `mark_group_returned` applies the return write to
exactly the departures of the group whose `actual_return` was empty at
read time, leaves every other row (already-returned members included)
unchanged, and reports only one overall success flag. -/
theorem C5_group_returned (db : DB) (gid : String) (now : Int)
    (hnd : (db.departures.map (·.id)).Nodup) :
    (markGroupReturned db gid now).2 = true ∧
    (markGroupReturned db gid now).1.extensions = db.extensions ∧
    (markGroupReturned db gid now).1.departures =
      db.departures.map fun d =>
        if d.group_id = gid ∧ isActive d = true
        then { d with actual_return := some now } else d := by
  refine ⟨rfl, rfl, ?_⟩
  show (groupActiveTargets db.departures gid).foldl
      (fun acc t => (markReturnedRows t.id now acc).1) db.departures = _
  rw [foldl_markReturned_eq_map now _ db.departures hnd]
  refine List.map_congr_left ?_
  intro d hd
  by_cases h : d.group_id = gid ∧ isActive d = true
  · rw [if_pos h, if_pos ((mem_groupActiveTargets_ids _ _ hnd d hd).mpr h)]
  · rw [if_neg h, if_neg (fun hh => h ((mem_groupActiveTargets_ids _ _ hnd d hd).mp hh))]

/-- Witness for `C5_group_returned` on the group with one member already
returned. -/
theorem C5_group_returned_witness :
    (markGroupReturned dbGroupB "7" 100).2 = true ∧
    (markGroupReturned dbGroupB "7" 100).1.extensions = dbGroupB.extensions ∧
    (markGroupReturned dbGroupB "7" 100).1.departures =
      dbGroupB.departures.map (fun d =>
        if d.group_id = "7" ∧ isActive d = true
        then { d with actual_return := some 100 } else d) := by
  exact C5_group_returned dbGroupB "7" 100 (by decide)

/-! ### Claim C6: departure id assignment -/

/-- The running maximum in `maxId` never decreases. -/
theorem le_foldl_max (l : List Departure) :
    ∀ (a : Nat), a ≤ l.foldl (fun m d => max m d.id) a := by
  induction l with
  | nil => intro a; exact le_refl a
  | cons d rest ih =>
    intro a
    exact le_trans (le_max_left a d.id) (ih (max a d.id))

/-- Every id in the list is bounded by the `maxId` fold. -/
theorem mem_le_foldl_max (l : List Departure) :
    ∀ (a : Nat) (d : Departure), d ∈ l →
      d.id ≤ l.foldl (fun m e => max m e.id) a := by
  induction l with
  | nil => intro a d hd; cases hd
  | cons e rest ih =>
    intro a d hd
    rcases List.mem_cons.mp hd with rfl | hd'
    · exact le_trans (le_max_right a d.id) (le_foldl_max rest (max a d.id))
    · exact ih (max a e.id) d hd'

/-- Appending a row that carries the freshly assigned id pushes the next
assigned id one higher. -/
theorem newDepartureId_append (deps : List Departure) (row : Departure)
    (hrow : row.id = newDepartureId deps) :
    newDepartureId (deps ++ [row]) = newDepartureId deps + 1 := by
  have hmax : maxId (deps ++ [row]) = max (maxId deps) row.id := by
    simp [maxId, List.foldl_append]
  rw [newDepartureId, if_neg (by simp), hmax, hrow]
  cases deps with
  | nil => simp [newDepartureId, maxId]
  | cons x xs =>
    rw [newDepartureId, if_neg (by simp)]
    rw [Nat.max_eq_right (Nat.le_succ _)]

/-- C6: `add_departure` assigns `max(existing ids) + 1` (1 on an empty
store), the appended row has an empty `actual_return` and
`extensions_count = 0`, the new id collides with no existing id, and two
sequential calls assign consecutive distinct ids. -/
theorem C6_add_departure_ids (db : DB)
    (p₁ q₁ f₁ s₁ c₁ g₁ l₁ p₂ q₂ f₂ s₂ c₂ g₂ l₂ : String)
    (e₁ e₂ t₁ t₂ : Int) :
    (addDeparture db p₁ q₁ e₁ f₁ s₁ c₁ g₁ l₁ t₁).2.id =
      newDepartureId db.departures ∧
    (db.departures.isEmpty = true →
      (addDeparture db p₁ q₁ e₁ f₁ s₁ c₁ g₁ l₁ t₁).2.id = 1) ∧
    (addDeparture db p₁ q₁ e₁ f₁ s₁ c₁ g₁ l₁ t₁).2.actual_return = none ∧
    (addDeparture db p₁ q₁ e₁ f₁ s₁ c₁ g₁ l₁ t₁).2.extensions_count = 0 ∧
    (∀ d ∈ db.departures,
      d.id ≠ (addDeparture db p₁ q₁ e₁ f₁ s₁ c₁ g₁ l₁ t₁).2.id) ∧
    (addDeparture db p₁ q₁ e₁ f₁ s₁ c₁ g₁ l₁ t₁).1.departures =
      db.departures ++ [(addDeparture db p₁ q₁ e₁ f₁ s₁ c₁ g₁ l₁ t₁).2] ∧
    (addDeparture (addDeparture db p₁ q₁ e₁ f₁ s₁ c₁ g₁ l₁ t₁).1
        p₂ q₂ e₂ f₂ s₂ c₂ g₂ l₂ t₂).2.id =
      (addDeparture db p₁ q₁ e₁ f₁ s₁ c₁ g₁ l₁ t₁).2.id + 1 := by
  refine ⟨rfl, ?_, rfl, rfl, ?_, rfl, ?_⟩
  · intro he
    show newDepartureId db.departures = 1
    rw [newDepartureId, if_pos he]
  · intro d hd
    show d.id ≠ newDepartureId db.departures
    have hne : db.departures.isEmpty = false := by
      cases hdb : db.departures with
      | nil => rw [hdb] at hd; cases hd
      | cons x xs => rfl
    rw [newDepartureId, if_neg (by simp [hne])]
    have := mem_le_foldl_max db.departures 0 d hd
    rw [maxId]
    omega
  · exact newDepartureId_append db.departures
      (addDeparture db p₁ q₁ e₁ f₁ s₁ c₁ g₁ l₁ t₁).2 rfl

/-- Witness for `C6_add_departure_ids` on the empty store. -/
theorem C6_add_departure_ids_witness :
    (addDeparture ⟨[], []⟩ "a" "b" 5 "c" "d" "e" "" "" 0).2.id =
      newDepartureId ([] : List Departure) ∧
    (([] : List Departure).isEmpty = true →
      (addDeparture ⟨[], []⟩ "a" "b" 5 "c" "d" "e" "" "" 0).2.id = 1) ∧
    (addDeparture ⟨[], []⟩ "a" "b" 5 "c" "d" "e" "" "" 0).2.actual_return = none ∧
    (addDeparture ⟨[], []⟩ "a" "b" 5 "c" "d" "e" "" "" 0).2.extensions_count = 0 ∧
    (∀ d ∈ ([] : List Departure),
      d.id ≠ (addDeparture ⟨[], []⟩ "a" "b" 5 "c" "d" "e" "" "" 0).2.id) ∧
    (addDeparture ⟨[], []⟩ "a" "b" 5 "c" "d" "e" "" "" 0).1.departures =
      [] ++ [(addDeparture ⟨[], []⟩ "a" "b" 5 "c" "d" "e" "" "" 0).2] ∧
    (addDeparture (addDeparture ⟨[], []⟩ "a" "b" 5 "c" "d" "e" "" "" 0).1
        "f" "g" 9 "h" "i" "j" "" "" 1).2.id =
      (addDeparture ⟨[], []⟩ "a" "b" 5 "c" "d" "e" "" "" 0).2.id + 1 := by
  exact C6_add_departure_ids ⟨[], []⟩ "a" "b" "c" "d" "e" "" "" "f" "g" "h" "i" "j" "" "" 5 9 0 1

/-! ### Claim C7: the due-soon window -/

/-- The half-hour card threshold in seconds: `time_remaining < 0.5` hours
is the same as being due within 1800 seconds. -/
theorem timeRemaining_lt_half (d : Departure) (now : Int) :
    timeRemaining d now < 1/2 ↔ d.expected_return - now < 1800 := by
  rw [timeRemaining, div_lt_iff₀ (by norm_num : (0:ℚ) < 3600)]
  constructor
  · intro h
    have h' : ((d.expected_return - now : ℤ) : ℚ) < 1800 := by
      calc ((d.expected_return - now : ℤ) : ℚ) < 1/2 * 3600 := h
        _ = 1800 := by norm_num
    exact_mod_cast h'
  · intro h
    have h' : ((d.expected_return - now : ℤ) : ℚ) < 1800 := by exact_mod_cast h
    calc ((d.expected_return - now : ℤ) : ℚ) < 1800 := h'
      _ = 1/2 * 3600 := by norm_num

/-- C7: an active, not-overdue departure is classified DUE_SOON iff it is
expected back within 30 minutes, and ON_TIME otherwise. -/
theorem C7_due_soon_window (db : List Departure) (now : Int) (r : ActiveRow)
    (hr : r ∈ getActiveDepartures db now) (hno : r.is_overdue = false) :
    (classifyRow r = Classification.dueSoon ↔
      r.dep.expected_return - now < 1800) ∧
    (classifyRow r = Classification.onTime ↔
      1800 ≤ r.dep.expected_return - now) := by
  rcases mem_getActiveDepartures.mp hr with ⟨d, -, -, rfl⟩
  have hno' : isOverdue d now = false := hno
  have hcls : classifyRow ⟨d, isOverdue d now, timeRemaining d now⟩ =
      if timeRemaining d now < 1/2
      then Classification.dueSoon else Classification.onTime := by
    simp [classifyRow, classifyCard, hno']
  show (_ = Classification.dueSoon ↔ d.expected_return - now < 1800) ∧
    (_ = Classification.onTime ↔ 1800 ≤ d.expected_return - now)
  by_cases htr : timeRemaining d now < 1/2
  · have h1 : d.expected_return - now < 1800 := (timeRemaining_lt_half d now).mp htr
    rw [hcls, if_pos htr]
    constructor
    · exact ⟨fun _ => h1, fun _ => rfl⟩
    · constructor
      · intro h; cases h
      · intro h; omega
  · have h2 : ¬(d.expected_return - now < 1800) :=
      fun hh => htr ((timeRemaining_lt_half d now).mpr hh)
    rw [hcls, if_neg htr]
    constructor
    · constructor
      · intro h; cases h
      · intro h; exact absurd h h2
    · exact ⟨fun _ => by omega, fun _ => rfl⟩

/-- Witness for `C7_due_soon_window`: a departure due in 1000 seconds. -/
theorem C7_due_soon_window_witness :
    (classifyRow rowDS = Classification.dueSoon ↔
      rowDS.dep.expected_return - 0 < 1800) ∧
    (classifyRow rowDS = Classification.onTime ↔
      1800 ≤ rowDS.dep.expected_return - 0) := by
  apply C7_due_soon_window [depDS] 0 rowDS
  · exact mem_getActiveDepartures.mpr ⟨depDS, List.mem_singleton.mpr rfl, rfl, rfl⟩
  · decide

/-! ### Claim C8: extend validation -/

/-- The row update of `extend_departure` fails only when the id is absent
from the departures table. -/
theorem extendRows_none (did : Nat) (h : Int) (loc : Option String)
    (deps : List Departure) (hmiss : ∀ d ∈ deps, d.id ≠ did) :
    extendRows did h loc deps = none := by
  induction deps with
  | nil => rfl
  | cons d rest ih =>
    rw [extendRows, if_neg (hmiss d (List.mem_cons_self d rest)),
      ih fun e he => hmiss e (List.mem_cons_of_mem d he)]
    rfl

/-- C8 counterexample: a call with `hours = 100` (far above the configured
maximum of 24) on a departure that has already returned is accepted:
`extend_departure` reports success and writes to the store, instead of
rejecting before any store write. -/
theorem C8_counterexample :
    isActive (mkDeparture 1 10000 (some 50) "") = false ∧
    ¬(1 ≤ (100 : Int) ∧ (100 : Int) ≤ 24) ∧
    (extendDeparture dbR 1 100 none 60).2 = true ∧
    (extendDeparture dbR 1 100 none 60).1 ≠ dbR := by
  refine ⟨by decide, by decide, by decide, by decide⟩

/-- C8 (amended): `extend_departure` itself performs no validation of
`hours` and no check that the departure is still active: a call with any
`hours` value whose id exists in the departures table (active or returned)
writes and reports success; only an id absent from the table leaves the
state unchanged and returns a failure flag. -/
theorem C8_no_validation (db : DB) (did : Nat) (hours : Int)
    (loc : Option String) (now : Int) :
    ((∀ d ∈ db.departures, d.id ≠ did) →
      extendDeparture db did hours loc now = (db, false)) ∧
    ((∃ d ∈ db.departures, d.id = did) →
      (extendDeparture db did hours loc now).2 = true) := by
  constructor
  · intro hmiss
    rw [extendDeparture, extendRows_none did hours loc db.departures hmiss]
  · rintro ⟨d, hd, hid⟩
    have hsome : (findDeparture db.departures did).isSome := by
      rw [findDeparture]
      exact List.find?_isSome.mpr ⟨d, hd, by simpa using hid⟩
    rcases Option.isSome_iff_exists.mp hsome with ⟨d', hd'⟩
    rcases extendRows_of_find did hours loc hd' with ⟨deps', hrows, -⟩
    simp [extendDeparture, hrows]

/-- Witness for `C8_no_validation`: a missing id fails without a write; an
oversized extension of a returned departure succeeds. -/
theorem C8_no_validation_witness :
    extendDeparture ⟨[], []⟩ 5 999 none 0 = (⟨[], []⟩, false) ∧
    (extendDeparture dbR 1 100 none 60).2 = true := by
  constructor
  · exact (C8_no_validation ⟨[], []⟩ 5 999 none 0).1 (by intro d hd; cases hd)
  · exact (C8_no_validation dbR 1 100 none 60).2
      ⟨mkDeparture 1 10000 (some 50) "", by decide, rfl⟩

/-! ### Claim C9: failure semantics -/

/-- The row write of `mark_returned` with an absent id changes nothing and
reports failure. -/
theorem markReturnedRows_missing (did : Nat) (now : Int)
    (l : List Departure) (hmiss : ∀ d ∈ l, d.id ≠ did) :
    markReturnedRows did now l = (l, false) := by
  induction l with
  | nil => rfl
  | cons d rest ih =>
    rw [markReturnedRows, if_neg (hmiss d (List.mem_cons_self d rest)),
      ih fun e he => hmiss e (List.mem_cons_of_mem d he)]

/-- C9: an empty active set is all clear — `get_active_departures` yields
no rows at all, hence no overdue and no due-soon entries — and operations
whose lookup fails surface a failure value with the state unchanged
(the try/except wrappers of the source are embedded as these failure
returns; no exception escapes to the caller). -/
theorem C9_all_clear_and_failure_returns (db : List Departure) (dbf : DB)
    (did : Nat) (now : Int)
    (hnone : ∀ d ∈ db, isActive d = false)
    (hmiss : ∀ d ∈ dbf.departures, d.id ≠ did) :
    getActiveDepartures db now = [] ∧
    ((getActiveDepartures db now).filter (·.is_overdue)).length = 0 ∧
    ((getActiveDepartures db now).filter
      (fun r => classifyRow r = Classification.dueSoon)).length = 0 ∧
    markReturned dbf did now = (dbf, false) ∧
    (∀ hours loc, extendDeparture dbf did hours loc now = (dbf, false)) := by
  have hfil : db.filter isActive = [] := by
    rw [List.filter_eq_nil_iff]
    intro d hd
    simp [hnone d hd]
  have hact : getActiveDepartures db now = [] := by
    rw [getActiveDepartures, activeRows, hfil, List.map_nil, List.mergeSort_nil]
  refine ⟨hact, by rw [hact]; rfl, by rw [hact]; rfl, ?_, ?_⟩
  · rw [markReturned, markReturnedRows_missing did now dbf.departures hmiss]
  · intro hours loc
    rw [extendDeparture, extendRows_none did hours loc dbf.departures hmiss]

/-- Witness for `C9_all_clear_and_failure_returns`: a store whose only
departure has returned, probed with an id that does not exist. -/
theorem C9_all_clear_and_failure_returns_witness :
    getActiveDepartures [mkDeparture 1 10000 (some 50) ""] 60 = [] ∧
    ((getActiveDepartures [mkDeparture 1 10000 (some 50) ""] 60).filter
      (·.is_overdue)).length = 0 ∧
    ((getActiveDepartures [mkDeparture 1 10000 (some 50) ""] 60).filter
      (fun r => classifyRow r = Classification.dueSoon)).length = 0 ∧
    markReturned dbR 99 60 = (dbR, false) ∧
    (∀ hours loc, extendDeparture dbR 99 hours loc 60 = (dbR, false)) := by
  exact C9_all_clear_and_failure_returns [mkDeparture 1 10000 (some 50) ""] dbR
    99 60 (by decide) (by decide)

/-! ### Claim C10: extension id assignment -/

/-- C10: `extend_departure` assigns the new Extension id as the count of
existing rows plus one (1 on an empty table), not `max(id) + 1`; the
appended audit row carries that id.  The id is fresh whenever existing ids
are bounded by the row count (as when rows are never deleted and every
append succeeded), but the count rule collides after a deletion: a table
holding only the row with id 2 gets the duplicate id 2, where the
`max(id) + 1` rule of departures would give the fresh id 3. -/
theorem C10_extension_id_assignment (db : DB) (did : Nat) (hours : Int)
    (loc : Option String) (now : Int) (d : Departure)
    (hd : findDeparture db.departures did = some d)
    (hbound : ∀ e ∈ db.extensions, e.id ≤ db.extensions.length) :
    newExtId db.extensions = db.extensions.length + 1 ∧
    ((extendDeparture db did hours loc now).1.extensions.map (·.id)).getLast?
      = some (db.extensions.length + 1) ∧
    (∀ e ∈ db.extensions, e.id ≠ newExtId db.extensions) ∧
    newExtId [⟨2, 1, 1, 0, ""⟩] = 2 ∧
    newExtId [⟨2, 1, 1, 0, ""⟩] ≠ 2 + 1 ∧
    ∃ e ∈ [(⟨2, 1, 1, 0, ""⟩ : Extension)], e.id = newExtId [⟨2, 1, 1, 0, ""⟩] := by
  have hnew : newExtId db.extensions = db.extensions.length + 1 := by
    cases db.extensions with
    | nil => rfl
    | cons e es => rfl
  refine ⟨hnew, ?_, ?_, by decide, by decide, ?_⟩
  · rcases extendRows_of_find did hours loc hd with ⟨deps', hrows, -⟩
    simp only [extendDeparture, hrows]
    rw [List.map_append, List.getLast?_append]
    simp [hnew]
  · intro e he
    have := hbound e he
    omega
  · exact ⟨⟨2, 1, 1, 0, ""⟩, List.mem_singleton.mpr rfl, by decide⟩

/-- Witness for `C10_extension_id_assignment` on a one-row extensions
table with a present departure id. -/
theorem C10_extension_id_assignment_witness :
    newExtId [⟨1, 1, 2, 10, ""⟩] = [(⟨1, 1, 2, 10, ""⟩ : Extension)].length + 1 ∧
    ((extendDeparture ⟨[depB], [⟨1, 1, 2, 10, ""⟩]⟩ 1 3 none 20).1.extensions.map
      (·.id)).getLast? = some ([(⟨1, 1, 2, 10, ""⟩ : Extension)].length + 1) ∧
    (∀ e ∈ [(⟨1, 1, 2, 10, ""⟩ : Extension)], e.id ≠ newExtId [⟨1, 1, 2, 10, ""⟩]) ∧
    newExtId [⟨2, 1, 1, 0, ""⟩] = 2 ∧
    newExtId [⟨2, 1, 1, 0, ""⟩] ≠ 2 + 1 ∧
    ∃ e ∈ [(⟨2, 1, 1, 0, ""⟩ : Extension)], e.id = newExtId [⟨2, 1, 1, 0, ""⟩] := by
  exact C10_extension_id_assignment ⟨[depB], [⟨1, 1, 2, 10, ""⟩]⟩ 1 3 none 20 depB
    (by decide) (by decide)

end JMP
